import Mathlib

/-!
Verification of the dimension-extraction and aggregation engine of the
SP advertising data-analysis tool (`src/data_processor.py`).

The pandas `DataFrame` is shallowly embedded as a `Table`: an ordered list of
column names together with rows, each row being a list of cells aligned with
the column list.  A cell is a number (modelled as `ℚ`; pandas numeric cells
are ints/floats), a string, or missing (`NaN`/`None`).

Pandas semantics relied on by the source and mirrored here:
  * `df.groupby(k).agg({c: 'sum'})` drops rows whose key is missing
    (`dropna=True` default), sums numeric columns skipping missing values
    (an all-missing group sums to 0), and concatenates all-string columns.
  * Division of a numeric series by zero yields `inf` / `-inf` for a nonzero
    numerator and `NaN` for `0/0`; it does not raise.
  * `df[c] = s` replaces column `c` in place when it exists and appends it
    as the last column otherwise.
  * Python `str.split()` splits on runs of whitespace and never returns
    empty tokens.
-/

/-- A single pandas cell: numeric, string, or missing (NaN/None). -/
inductive Cell where
  | num (q : ℚ)
  | str (s : String)
  | missing
deriving DecidableEq, Repr

/-- A pandas DataFrame: ordered column names and rows of cells, each row
aligned positionally with `cols`. -/
structure Table where
  cols : List String
  rows : List (List Cell)
deriving DecidableEq, Repr

/-- Python exceptions raised by the source: `ValueError(msg)` raised
explicitly, and `KeyError` raised by pandas `groupby` on a missing column. -/
inductive PyError where
  | valueError (msg : String)
  | keyError (key : String)
deriving DecidableEq, Repr

instance {ε α : Type} [DecidableEq ε] [DecidableEq α] : DecidableEq (Except ε α) :=
  fun x y =>
    match x, y with
    | .ok a, .ok b =>
      if h : a = b then .isTrue (by rw [h]) else .isFalse (by simp [h])
    | .error e, .error f =>
      if h : e = f then .isTrue (by rw [h]) else .isFalse (by simp [h])
    | .ok _, .error _ => .isFalse (by simp)
    | .error _, .ok _ => .isFalse (by simp)

/-- Characters Python `str.split()` treats as whitespace (the ASCII ones;
other Unicode space characters do not occur in the claims). -/
def pyIsSpace (c : Char) : Bool :=
  c.isWhitespace || c = '\x0b' || c = '\x0c'

/-- Worker for `pySplit`: scans the characters, accumulating the current
token reversed in `acc`. -/
def splitTokens : List Char → List Char → List String
  | [], acc => if acc.isEmpty then [] else [String.mk acc.reverse]
  | c :: cs, acc =>
    if pyIsSpace c then
      (if acc.isEmpty then [] else [String.mk acc.reverse]) ++ splitTokens cs []
    else
      splitTokens cs (c :: acc)

/-- Python `s.split()`: the whitespace-run-delimited tokens of `s`.
Tokens are nonempty and contain no whitespace. -/
def pySplit (s : String) : List String :=
  splitTokens s.data []

/-- The sentinel the source returns when a positional token is absent;
the spec calls it `Unclassified`. -/
def unclassified : String := "未分类"

/-- The `isinstance(x, str)` guard of the three extractors: a string cell
passes, every other value (number, NaN, None) does not. -/
def campaignCell : Cell → Option String
  | .str s => some s
  | _ => none

/-- Python truthiness of `token.strip()`: true iff the token has a
non-whitespace character. -/
def stripTruthy (t : String) : Bool :=
  ¬ t.data.all pyIsSpace

/-- `extract_parent_code` (src/data_processor.py:15-27): first
whitespace-delimited token of the campaign name, else the sentinel. -/
def extract_parent_code (campaign_name : Cell) : String :=
  match campaignCell campaign_name with
  | none => unclassified
  | some s =>
    match (pySplit s)[0]? with
    | some p => if stripTruthy p then p else unclassified
    | none => unclassified

/-- `extract_pattern` (src/data_processor.py:30-42): second token. -/
def extract_pattern (campaign_name : Cell) : String :=
  match campaignCell campaign_name with
  | none => unclassified
  | some s =>
    match (pySplit s)[1]? with
    | some p => if stripTruthy p then p else unclassified
    | none => unclassified

/-- `extract_attribute` (src/data_processor.py:45-58): third token. -/
def extract_attribute (campaign_name : Cell) : String :=
  match campaignCell campaign_name with
  | none => unclassified
  | some s =>
    match (pySplit s)[2]? with
    | some p => if stripTruthy p then p else unclassified
    | none => unclassified

/-- Index of column `c` in `cols` (`List.indexOf`; equals `cols.length`
when absent). -/
def colIdx (cols : List String) (c : String) : Nat :=
  cols.indexOf c

/-- The cell of row `r` in column `c` (missing when out of range). -/
def cellAt (cols : List String) (r : List Cell) (c : String) : Cell :=
  r.getD (colIdx cols c) .missing

/-- Pandas `df[name] = series`: replace column `name` in place when present,
append it as the last column otherwise.  The per-row function `f` sees the
row as it is at assignment time. -/
def setColT (t : Table) (name : String) (f : List Cell → Cell) : Table :=
  if name ∈ t.cols then
    { cols := t.cols, rows := t.rows.map (fun r => r.set (colIdx t.cols name) (f r)) }
  else
    { cols := t.cols ++ [name], rows := t.rows.map (fun r => r ++ [f r]) }

/-- Campaign-column lookup of `extract_all_dimensions`
(src/data_processor.py:74-80): `'Campaign Name'` first, then `'广告活动'`. -/
def findCampaignCol (cols : List String) : Option String :=
  if "Campaign Name" ∈ cols then some "Campaign Name"
  else if "广告活动" ∈ cols then some "广告活动"
  else none

/-- The `ValueError` message raised when no campaign column exists. -/
def missingColMsg : String := "数据框中未找到 'Campaign Name' 或 '广告活动' 列"

/-- `extract_all_dimensions` (src/data_processor.py:61-87): copy the frame
and assign the three dimension columns derived from the campaign column. -/
def extract_all_dimensions (df : Table) : Except PyError Table :=
  match findCampaignCol df.cols with
  | none => .error (.valueError missingColMsg)
  | some cc =>
    let t1 := setColT df "Parent Code"
      (fun r => .str (extract_parent_code (cellAt df.cols r cc)))
    let t2 := setColT t1 "Pattern"
      (fun r => .str (extract_pattern (cellAt t1.cols r cc)))
    let t3 := setColT t2 "Attribute"
      (fun r => .str (extract_attribute (cellAt t2.cols r cc)))
    .ok t3

/-! ## Kernel-computable rational arithmetic

The standard `Rat` operations are irreducible, so concrete tables could not
be evaluated by `decide`.  The engine therefore uses the wrappers below,
each proved equal to the standard operation. -/

/-- Addition on `ℚ` via `mkRat` (kernel-computable). -/
def qadd (a b : ℚ) : ℚ :=
  mkRat (a.num * b.den + b.num * a.den) (a.den * b.den)

theorem qadd_eq (a b : ℚ) : qadd a b = a + b := by
  have ha : (a.den : ℚ) ≠ 0 := by exact_mod_cast a.den_nz
  have hb : (b.den : ℚ) ≠ 0 := by exact_mod_cast b.den_nz
  conv_rhs => rw [← Rat.num_div_den a, ← Rat.num_div_den b]
  rw [div_add_div _ _ ha hb, qadd, Rat.mkRat_eq_divInt, Rat.divInt_eq_div]
  push_cast
  congr 1
  ring

/-- Division on `ℚ` via `Rat.divInt` (kernel-computable). -/
def qdiv (a b : ℚ) : ℚ :=
  Rat.divInt (a.num * b.den) (a.den * b.num)

theorem qdiv_eq (a b : ℚ) : qdiv a b = a / b := by
  rw [qdiv, ← Rat.divInt_div_divInt, Rat.num_divInt_den, Rat.num_divInt_den]

/-- Multiplication by 100 (kernel-computable). -/
def qmul100 (a : ℚ) : ℚ :=
  mkRat (a.num * 100) a.den

theorem qmul100_eq (a : ℚ) : qmul100 a = a * 100 := by
  conv_rhs => rw [← Rat.num_div_den a]
  rw [qmul100, Rat.mkRat_eq_divInt, Rat.divInt_eq_div]
  push_cast
  ring

/-- Boolean `≤` on `ℚ` via cross multiplication (kernel-computable). -/
def qleb (a b : ℚ) : Bool :=
  decide (a.num * b.den ≤ b.num * a.den)

theorem qleb_iff (a b : ℚ) : qleb a b = true ↔ a ≤ b := by
  rw [qleb, decide_eq_true_iff, ← Rat.le_def]

/-- List sum on `ℚ` via `qadd` (kernel-computable). -/
def qsum : List ℚ → ℚ
  | [] => 0
  | q :: l => qadd q (qsum l)

theorem qsum_eq (l : List ℚ) : qsum l = l.sum := by
  induction l with
  | nil => rfl
  | cons q l ih => rw [qsum, qadd_eq, ih, List.sum_cons]

/-- Boolean `≤` on `String` via the character lists (kernel-computable). -/
def strLeb (a b : String) : Bool :=
  decide (a.data ≤ b.data)

theorem strLeb_iff (a b : String) : strLeb a b = true ↔ a ≤ b := by
  rw [strLeb, decide_eq_true_iff, String.le_iff_toList_le]
  rfl

/-! ## Value formatting (`format_value`, src/data_processor.py:108-136) -/

/-- A Python float as produced by pandas series division: a finite value
(exactly representable here as `ℚ`), an infinity, or `NaN`. -/
inductive PyFloat where
  | val (q : ℚ)
  | inf
  | ninf
  | nan
deriving DecidableEq, Repr

/-- Floor of a rational (the denominator is positive, so Euclidean division
of the numerator is the floor). -/
def qfloor (q : ℚ) : ℤ := q.num.ediv q.den

/-- Round to nearest, halves up: `⌊q + 1/2⌋`. -/
def qround (q : ℚ) : ℤ := qfloor (qadd q (mkRat 1 2))

/-- Python `f"{x:.2f}"` for a finite value: two decimal places, rounding to
nearest (ties cannot arise at the claims' inputs, which are exact). -/
def fixed2 (q : ℚ) : String :=
  let n : ℤ := qround (qmul100 q)
  let a : Nat := n.natAbs
  (if n < 0 then "-" else "") ++ toString (a / 100) ++ "." ++
    (if a % 100 < 10 then "0" else "") ++ toString (a % 100)

/-- Python `int()` truncation toward zero (the denominator is positive). -/
def pyInt (q : ℚ) : ℤ := q.num.tdiv q.den

/-- `format_value` (src/data_processor.py:108-136).  `none` models a raised
exception: `int(x)` overflows on an infinite `x` in the `'number'` branch;
every other branch returns normally.  `pd.isna` is true exactly on `NaN`
(not on infinities), so an infinite value reaches the format strings and
renders as `inf` with the kind's decoration.  The final `else` branch
(`str(value)`) is never reached by the source's call sites; the finite case
is modelled by the exact decimal rendering. -/
def format_value (value : PyFloat) (metric_type : String) : Option String :=
  match value with
  | .nan => some "-"
  | .inf =>
    if metric_type = "percent" then some "inf%"
    else if metric_type = "currency" then some "¥inf"
    else if metric_type = "ratio" then some "infx"
    else if metric_type = "number" then none
    else some "inf"
  | .ninf =>
    if metric_type = "percent" then some "-inf%"
    else if metric_type = "currency" then some "¥-inf"
    else if metric_type = "ratio" then some "-infx"
    else if metric_type = "number" then none
    else some "-inf"
  | .val q =>
    if metric_type = "percent" then some (fixed2 q ++ "%")
    else if metric_type = "currency" then some ("¥" ++ fixed2 q)
    else if metric_type = "ratio" then some (fixed2 q ++ "x")
    else if metric_type = "number" then some (toString (pyInt q))
    else some (toString q)

/-! ## Aggregation (`aggregate_single` / `aggregate_cross`,
src/data_processor.py:139-276) -/

/-- Pandas series division of two summed cells.  For numeric operands,
division by zero yields `inf`/`-inf`/`NaN` (never an exception).  Non-numeric
operands (a string-concatenated sum) raise a `TypeError` in pandas; the
embedding totalises that case to `NaN`, so every no-raise statement below
carries hypotheses confining it to numeric summed columns, where this
branch is never reached. -/
def pyDiv : Cell → Cell → PyFloat
  | .num p, .num q =>
    if q = 0 then (if 0 < p.num then .inf else if p.num < 0 then .ninf else .nan)
    else .val (qdiv p q)
  | _, _ => .nan

/-- Multiplication by 100 (`... * 100` on the quotient series). -/
def pyMul100 : PyFloat → PyFloat
  | .val q => .val (qmul100 q)
  | .inf => .inf
  | .ninf => .ninf
  | .nan => .nan

/-- The per-cell lambda of each derived metric
(`lambda x: format_value(x, k) if pd.notna(x) else "-"`).  For the three
kinds the source passes, `format_value` never raises, so the `getD`
default is unreachable. -/
def fmtMetric (x : PyFloat) (k : String) : String :=
  match x with
  | .nan => "-"
  | x' => (format_value x' k).getD "-"

/-- One derived-metric cell: divide the two summed cells, optionally scale
by 100, then format. -/
def metricCell (n d : Cell) (k : String) (m100 : Bool) : String :=
  fmtMetric (if m100 then pyMul100 (pyDiv n d) else pyDiv n d) k

/-- `column_mappings` (src/data_processor.py:168-174): role → ordered
synonym list. -/
def column_mappings : List (String × List String) :=
  [("impressions", ["Impressions", "曝光量", "展示"]),
   ("click", ["Clicks", "Click", "点击", "点击数"]),
   ("spend", ["Spend", "Spend ($)", "花费", "支出"]),
   ("sales", ["Sales", "销售额", "销售"]),
   ("conversions", ["Conversions", "转化", "转化数"])]

/-- Role resolution (src/data_processor.py:177-182): the first synonym
present among the grouped result's columns, if any. -/
def roleCol (cols : List String) (role : String) : Option String :=
  match column_mappings.find? (fun p => p.1 = role) with
  | some p => p.2.find? (fun n => cols.contains n)
  | none => none

def isStrCell : Cell → Bool
  | .str _ => true
  | _ => false

/-- The numeric value of a cell, counting missing (and string) cells as 0. -/
def numVal : Cell → ℚ
  | .num q => q
  | _ => 0

def strVal : Cell → Option String
  | .str s => some s
  | _ => none

/-- Pandas `'sum'` aggregation of one column within one group: missing
values are skipped (an all-missing column sums to 0); an all-string column
is concatenated.  A column mixing strings and numbers raises a `TypeError`
in pandas; the embedding totalises that case (the string part is kept), so
every no-raise statement below carries hypotheses excluding string cells
from the summed columns, where this branch reduces to the numeric sum. -/
def sumCells (l : List Cell) : Cell :=
  if l.any isStrCell then .str (String.join (l.filterMap strVal))
  else .num (qsum (l.map numVal))

/-- The columns excluded from summation (src/data_processor.py:156-159 and
265-268): note the literal English `'Campaign Name'` only. -/
def excludedCols : List String :=
  ["Campaign Name", "Parent Code", "Pattern", "Attribute"]

/-- The three valid dimensions. -/
def validDims : List String := ["Parent Code", "Pattern", "Attribute"]

/-- `sum_columns`: every column except the four excluded ones. -/
def sum_columns (t : Table) : List String :=
  t.cols.filter (fun c => !(excludedCols.contains c))

/-- The distinct non-missing group keys of a dimension column, in first
occurrence order (pandas `groupby` drops missing keys, `dropna=True`). -/
def keyCells (t : Table) (dim : String) : List Cell :=
  ((t.rows.map (fun r => cellAt t.cols r dim)).filter
    (fun k => !(k == .missing))).dedup

/-- The rows belonging to group `k`. -/
def groupOf (t : Table) (dim : String) (k : Cell) : List (List Cell) :=
  t.rows.filter (fun r => cellAt t.cols r dim == k)

/-- `df.groupby(dimension).agg(sum_columns).reset_index()`: one row per
distinct non-missing key, the key first, then the per-group sums of the
summed columns. -/
def groupedTable (t : Table) (dim : String) : Table :=
  { cols := dim :: sum_columns t,
    rows := (keyCells t dim).map (fun k =>
      k :: (sum_columns t).map (fun c =>
        sumCells ((groupOf t dim k).map (fun r => cellAt t.cols r c)))) }

/-- The six derived-metric output column names, in source order. -/
def derivedNames : List String := ["CTR", "CPC", "ROAS", "ACoS", "CVR", "CPA"]

/-- One derived metric: output column name, numerator role, denominator
role, format kind, whether the quotient is scaled by 100. -/
structure MetricSpec where
  name : String
  numRole : String
  denRole : String
  kind : String
  times100 : Bool
deriving DecidableEq, Repr

/-- The six derived metrics in source order (src/data_processor.py:184-230). -/
def metricSpecs : List MetricSpec :=
  [⟨"CTR", "click", "impressions", "percent", true⟩,
   ⟨"CPC", "spend", "click", "currency", false⟩,
   ⟨"ROAS", "sales", "spend", "ratio", false⟩,
   ⟨"ACoS", "spend", "sales", "percent", true⟩,
   ⟨"CVR", "conversions", "click", "percent", true⟩,
   ⟨"CPA", "spend", "conversions", "currency", false⟩]

/-- One conditional metric assignment: when both roles resolve (against the
grouped result's columns `rcols`, resolved before any assignment), assign
the formatted column; otherwise leave the table unchanged. -/
def applyMetric (rcols : List String) (t : Table) (sp : MetricSpec) : Table :=
  match roleCol rcols sp.numRole, roleCol rcols sp.denRole with
  | some n, some d =>
    setColT t sp.name (fun r =>
      .str (metricCell (cellAt t.cols r n) (cellAt t.cols r d) sp.kind sp.times100))
  | _, _ => t

/-- The six sequential conditional assignments of derived metrics. -/
def withMetrics (g : Table) : Table :=
  metricSpecs.foldl (applyMetric g.cols) g

/-- Pandas `df[cs]` column selection/reordering. -/
def selectCols (t : Table) (cs : List String) : Table :=
  { cols := cs, rows := t.rows.map (fun r => cs.map (fun c => cellAt t.cols r c)) }

/-- Total order on cells used for sorting group keys.  Pandas raises a
`TypeError` on mixed-type key comparisons, which the totalisation
`num < str` replaces; every no-raise statement below therefore carries a
hypothesis keeping the key column homogeneous (all strings, or all
missing/string), where this order agrees with the pandas one. -/
def cellLeb : Cell → Cell → Bool
  | .missing, _ => true
  | _, .missing => false
  | .num p, .num q => qleb p q
  | .num _, .str _ => true
  | .str _, .num _ => false
  | .str s, .str u => strLeb s u

def cellLe (a b : Cell) : Prop := cellLeb a b = true

instance : DecidableRel cellLe := fun a b =>
  inferInstanceAs (Decidable (cellLeb a b = true))

/-- Row comparison by the dimension key (pandas `sort_values(by=dim)`). -/
def rowKeyLe (cols : List String) (dim : String) (r s : List Cell) : Prop :=
  cellLe (cellAt cols r dim) (cellAt cols s dim)

instance (cols : List String) (dim : String) : DecidableRel (rowKeyLe cols dim) :=
  fun _ _ => inferInstanceAs (Decidable (cellLe _ _))

/-- `aggregate_single` (src/data_processor.py:139-240): validate the
dimension, group and sum, append resolved derived metrics, put the
dimension column first, sort by it. -/
def aggregate_single (df : Table) (dimension : String) : Except PyError Table :=
  if dimension ∉ validDims then
    .error (.valueError ("无效的维度: " ++ dimension))
  else if dimension ∉ df.cols then
    .error (.keyError dimension)
  else
    let g := withMetrics (groupedTable df dimension)
    let g2 := selectCols g (dimension :: g.cols.filter (fun c => !(c == dimension)))
    .ok { cols := g2.cols,
          rows := List.insertionSort (rowKeyLe g2.cols dimension) g2.rows }

/-- The `ValueError` message of `aggregate_cross` for an invalid dimension
(the Python f-string interpolates the list of valid dimensions). -/
def crossInvalidMsg : String :=
  "无效的维度，应该是 ['Parent Code', 'Pattern', 'Attribute'] 中的一个"

/-- The `ValueError` message for duplicate dimensions. -/
def dupDimMsg : String := "两个维度不能相同"

/-- Distinct non-missing key pairs for the cross aggregation (a row is
dropped when either key is missing). -/
def keyPairs (t : Table) (dim1 dim2 : String) : List (Cell × Cell) :=
  ((t.rows.map (fun r => (cellAt t.cols r dim1, cellAt t.cols r dim2))).filter
    (fun p => !(p.1 == .missing) && !(p.2 == .missing))).dedup

/-- The rows belonging to a key pair. -/
def groupOf2 (t : Table) (dim1 dim2 : String) (p : Cell × Cell) : List (List Cell) :=
  t.rows.filter (fun r =>
    (cellAt t.cols r dim1, cellAt t.cols r dim2) == p)

/-- Lexicographic comparison of key pairs (pandas
`sort_values(by=[dim1, dim2])`). -/
def pairLe (a b : Cell × Cell) : Prop :=
  if a.1 = b.1 then cellLe a.2 b.2 else cellLe a.1 b.1

instance : DecidableRel pairLe := fun a b => by
  unfold pairLe
  exact instDecidableIte

/-- Row comparison for the cross aggregation. -/
def rowKeyLe2 (cols : List String) (dim1 dim2 : String) (r s : List Cell) : Prop :=
  pairLe (cellAt cols r dim1, cellAt cols r dim2)
    (cellAt cols s dim1, cellAt cols s dim2)

instance (cols : List String) (dim1 dim2 : String) :
    DecidableRel (rowKeyLe2 cols dim1 dim2) :=
  fun _ _ => inferInstanceAs (Decidable (pairLe _ _))

/-- `aggregate_cross` (src/data_processor.py:243-276): validate both
dimensions and their distinctness, group by the ordered pair, sum the same
column set, sort by the pair (no derived metrics in cross mode). -/
def aggregate_cross (df : Table) (dim1 dim2 : String) : Except PyError Table :=
  if dim1 ∉ validDims ∨ dim2 ∉ validDims then
    .error (.valueError crossInvalidMsg)
  else if dim1 = dim2 then
    .error (.valueError dupDimMsg)
  else if dim1 ∉ df.cols then
    .error (.keyError dim1)
  else if dim2 ∉ df.cols then
    .error (.keyError dim2)
  else
    let cols := dim1 :: dim2 :: sum_columns df
    let rows := (keyPairs df dim1 dim2).map (fun p =>
      p.1 :: p.2 :: (sum_columns df).map (fun c =>
        sumCells ((groupOf2 df dim1 dim2 p).map (fun r => cellAt df.cols r c))))
    .ok { cols := cols,
          rows := List.insertionSort (rowKeyLe2 cols dim1 dim2) rows }

/-! ## Heap model

To state the frame conditions (the caller's `DataFrame` is not mutated), the
Python heap is modelled as a list of tables addressed by index.  Operations
that pandas documents as returning a new object (`df.copy()`,
`groupby(...).agg(...)`, `reset_index()`, `df[cols]`, `sort_values(...)`)
allocate a fresh slot; `df[col] = series` writes to the object's slot in
place. -/

/-- Read the table at address `a` (an invalid address reads as empty). -/
def hread (h : List Table) (a : Nat) : Table :=
  h.getD a ⟨[], []⟩

/-- `extract_all_dimensions` as a heap program: `df.copy()` allocates a copy,
then the three column assignments mutate the copy in place; the argument
frame at `dfA` is only read. -/
def extract_all_py (h : List Table) (dfA : Nat) :
    List Table × Except PyError Nat :=
  let df := hread h dfA
  let cA := h.length
  let h1 := h ++ [df]
  match findCampaignCol df.cols with
  | none => (h1, .error (.valueError missingColMsg))
  | some cc =>
    let t1 := hread h1 cA
    let h2 := h1.set cA (setColT t1 "Parent Code"
      (fun r => .str (extract_parent_code (cellAt t1.cols r cc))))
    let t2 := hread h2 cA
    let h3 := h2.set cA (setColT t2 "Pattern"
      (fun r => .str (extract_pattern (cellAt t2.cols r cc))))
    let t3 := hread h3 cA
    let h4 := h3.set cA (setColT t3 "Attribute"
      (fun r => .str (extract_attribute (cellAt t3.cols r cc))))
    (h4, .ok cA)

/-- `aggregate_single` as a heap program: `groupby(...).agg(...).reset_index()`
allocates the grouped frame, the six metric assignments mutate it in place,
`result[cols]` and `sort_values(...).reset_index(drop=True)` allocate fresh
frames; the argument frame at `dfA` is only read. -/
def aggregate_single_py (h : List Table) (dfA : Nat) (dimension : String) :
    List Table × Except PyError Nat :=
  let df := hread h dfA
  if dimension ∉ validDims then
    (h, .error (.valueError ("无效的维度: " ++ dimension)))
  else if dimension ∉ df.cols then
    (h, .error (.keyError dimension))
  else
    let rA := h.length
    let h1 := h ++ [groupedTable df dimension]
    let h2 := h1.set rA (withMetrics (hread h1 rA))
    let g := hread h2 rA
    let r2A := h2.length
    let h3 := h2 ++ [selectCols g (dimension :: g.cols.filter (fun c => !(c == dimension)))]
    let g2 := hread h3 r2A
    let h4 := h3 ++ [{ cols := g2.cols,
                       rows := List.insertionSort (rowKeyLe g2.cols dimension) g2.rows }]
    (h4, .ok h3.length)

/-- `aggregate_cross` as a heap program: the grouped frame and the sorted
final frame are fresh allocations; the argument frame is only read. -/
def aggregate_cross_py (h : List Table) (dfA : Nat) (dim1 dim2 : String) :
    List Table × Except PyError Nat :=
  let df := hread h dfA
  if dim1 ∉ validDims ∨ dim2 ∉ validDims then
    (h, .error (.valueError crossInvalidMsg))
  else if dim1 = dim2 then
    (h, .error (.valueError dupDimMsg))
  else if dim1 ∉ df.cols then
    (h, .error (.keyError dim1))
  else if dim2 ∉ df.cols then
    (h, .error (.keyError dim2))
  else
    let cols := dim1 :: dim2 :: sum_columns df
    let rows := (keyPairs df dim1 dim2).map (fun p =>
      p.1 :: p.2 :: (sum_columns df).map (fun c =>
        sumCells ((groupOf2 df dim1 dim2 p).map (fun r => cellAt df.cols r c))))
    let h1 := h ++ [{ cols := cols, rows := rows }]
    let h2 := h1 ++ [{ cols := cols,
                       rows := List.insertionSort (rowKeyLe2 cols dim1 dim2) rows }]
    (h2, .ok h1.length)

/-- The cells of column `c`, top to bottom. -/
def colCells (t : Table) (c : String) : List Cell :=
  t.rows.map (fun r => cellAt t.cols r c)

/-- The numeric sum of column `c` (missing cells count 0). -/
def colSumQ (t : Table) (c : String) : ℚ :=
  qsum ((colCells t c).map numVal)

theorem colSumQ_eq_sum (t : Table) (c : String) :
    colSumQ t c = ((colCells t c).map numVal).sum := by
  rw [colSumQ, qsum_eq]

/-! ## Claim theorems -/

/-- C7: `aggregate_single` fails with the InvalidDimension `ValueError` iff
its dimension is not one of {Parent Code, Pattern, Attribute};
`aggregate_cross` fails with the InvalidDimension `ValueError` iff either
argument is outside that set, and with the DuplicateDimension `ValueError`
iff both are valid and equal (the invalid-dimension check precedes the
duplicate check); with valid distinct dimensions neither operation produces
either error. -/
theorem C7_dimension_validation (df : Table) (dim dim1 dim2 : String) :
    (dim ∉ validDims ↔
      aggregate_single df dim = .error (.valueError ("无效的维度: " ++ dim))) ∧
    ((dim1 ∉ validDims ∨ dim2 ∉ validDims) ↔
      aggregate_cross df dim1 dim2 = .error (.valueError crossInvalidMsg)) ∧
    ((dim1 ∈ validDims ∧ dim2 ∈ validDims ∧ dim1 = dim2) ↔
      aggregate_cross df dim1 dim2 = .error (.valueError dupDimMsg)) ∧
    (dim1 ∈ validDims → dim2 ∈ validDims → dim1 ≠ dim2 →
      aggregate_cross df dim1 dim2 ≠ .error (.valueError crossInvalidMsg) ∧
      aggregate_cross df dim1 dim2 ≠ .error (.valueError dupDimMsg)) := by
  refine ⟨?_, ?_, ?_, ?_⟩
  · unfold aggregate_single
    split_ifs with h1 h2 <;> simp_all [PyError.valueError.injEq]
  · unfold aggregate_cross
    split_ifs with h1 h2 h3 h4 <;>
      simp_all [crossInvalidMsg, dupDimMsg, PyError.valueError.injEq]
  · unfold aggregate_cross
    split_ifs with h1 h2 h3 h4 <;>
      simp_all [crossInvalidMsg, dupDimMsg, PyError.valueError.injEq] <;> tauto
  · intro hv1 hv2 hne
    unfold aggregate_cross
    split_ifs with h1 h2 h3 h4 <;> simp_all

/-- Witness for C7: at a concrete table, valid distinct dimensions produce
neither the InvalidDimension nor the DuplicateDimension error. -/
theorem C7_dimension_validation_witness :
    aggregate_cross ⟨["Parent Code", "Pattern"], []⟩ "Parent Code" "Pattern" ≠
      .error (.valueError crossInvalidMsg) ∧
    aggregate_cross ⟨["Parent Code", "Pattern"], []⟩ "Parent Code" "Pattern" ≠
      .error (.valueError dupDimMsg) :=
  (C7_dimension_validation ⟨["Parent Code", "Pattern"], []⟩ "Parent Code"
    "Parent Code" "Pattern").2.2.2 (by decide) (by decide) (by decide)

/-- C6: `extract_all_dimensions` looks for a column literally named
`Campaign Name` first and then `广告活动`, and fails with the MissingColumn
`ValueError` (whose message names both candidates) iff neither column is
present. -/
theorem C6_campaign_column_lookup (df : Table) :
    (extract_all_dimensions df = .error (.valueError missingColMsg) ↔
      "Campaign Name" ∉ df.cols ∧ "广告活动" ∉ df.cols) ∧
    ("Campaign Name" ∈ df.cols → findCampaignCol df.cols = some "Campaign Name") ∧
    ("Campaign Name" ∉ df.cols → "广告活动" ∈ df.cols →
      findCampaignCol df.cols = some "广告活动") ∧
    (∃ a b c : String, missingColMsg = a ++ "Campaign Name" ++ b ++ "广告活动" ++ c) := by
  refine ⟨?_, ?_, ?_, "数据框中未找到 '", "' 或 '", "' 列", by decide⟩
  · unfold extract_all_dimensions findCampaignCol
    split_ifs with h1 h2 <;> simp_all
  · intro h
    unfold findCampaignCol
    rw [if_pos h]
  · intro h1 h2
    unfold findCampaignCol
    rw [if_neg h1, if_pos h2]

/-- Witness for C6: a table with only the Chinese campaign column resolves
to it, and a table with neither candidate fails with the MissingColumn
error. -/
theorem C6_campaign_column_lookup_witness :
    findCampaignCol (Table.cols ⟨["广告活动"], []⟩) = some "广告活动" ∧
    extract_all_dimensions ⟨["Other"], []⟩ = .error (.valueError missingColMsg) :=
  ⟨(C6_campaign_column_lookup ⟨["广告活动"], []⟩).2.2.1 (by decide) (by decide),
   ((C6_campaign_column_lookup ⟨["Other"], []⟩).1).mpr ⟨by decide, by decide⟩⟩

/-- Every token produced by `splitTokens` from a non-whitespace accumulator
is nonempty and contains no whitespace character: a character enters the
accumulator only through the non-whitespace branch, and a token is emitted
only when the accumulator is nonempty. -/
theorem splitTokens_token_chars : ∀ (cs acc : List Char),
    (∀ ch ∈ acc, pyIsSpace ch = false) →
    ∀ t ∈ splitTokens cs acc,
      t.data ≠ [] ∧ ∀ ch ∈ t.data, pyIsSpace ch = false := by
  intro cs
  induction cs with
  | nil =>
    intro acc hacc t ht
    unfold splitTokens at ht
    by_cases he : acc.isEmpty
    · rw [if_pos he] at ht
      simp at ht
    · rw [if_neg he] at ht
      rw [List.mem_singleton] at ht
      subst ht
      refine ⟨?_, ?_⟩
      · show acc.reverse ≠ []
        intro hn
        rw [List.reverse_eq_nil_iff] at hn
        exact he (List.isEmpty_iff.mpr hn)
      · intro ch hch
        rw [show (String.mk acc.reverse).data = acc.reverse from rfl,
          List.mem_reverse] at hch
        exact hacc ch hch
  | cons c cs ih =>
    intro acc hacc t ht
    unfold splitTokens at ht
    by_cases hsp : pyIsSpace c
    · rw [if_pos hsp] at ht
      rcases List.mem_append.mp ht with h1 | h1
      · by_cases he : acc.isEmpty
        · rw [if_pos he] at h1
          simp at h1
        · rw [if_neg he] at h1
          rw [List.mem_singleton] at h1
          subst h1
          refine ⟨?_, ?_⟩
          · show acc.reverse ≠ []
            intro hn
            rw [List.reverse_eq_nil_iff] at hn
            exact he (List.isEmpty_iff.mpr hn)
          · intro ch hch
            rw [show (String.mk acc.reverse).data = acc.reverse from rfl,
              List.mem_reverse] at hch
            exact hacc ch hch
      · exact ih [] (by simp) t h1
    · rw [if_neg hsp] at ht
      refine ih (c :: acc) ?_ t ht
      intro ch hch
      rcases List.mem_cons.mp hch with rfl | hch
      · simpa using hsp
      · exact hacc ch hch

/-- Python truthiness of `token.strip()` holds for every token of
`s.split()`: tokens are nonempty and whitespace-free, so stripping one
never yields the empty string. -/
theorem stripTruthy_pySplit (s p : String) (hp : p ∈ pySplit s) :
    stripTruthy p = true := by
  obtain ⟨hne, hall⟩ := splitTokens_token_chars s.data [] (by simp) p hp
  have hfalse : p.data.all pyIsSpace = false := by
    cases hd : p.data with
    | nil => exact absurd hd hne
    | cons ch rest =>
      rw [List.all_cons]
      have hc := hall ch (by rw [hd]; exact List.mem_cons_self ch rest)
      rw [hc]
      rfl
  simp [stripTruthy, hfalse]

/-- C4: each extractor equals the first, second, or third whitespace-run
token of the campaign name when that token is present, and the sentinel
exactly when the token is absent or the name is missing/non-string (the
empty string has no tokens); the example name yields ParentCode `SP-US`,
Pattern `模式A1`, Attribute sentinel. -/
theorem C4_extractor_tokens :
    (∀ v : Cell,
      extract_parent_code v = (match campaignCell v with
        | none => unclassified
        | some s => ((pySplit s)[0]?).getD unclassified) ∧
      extract_pattern v = (match campaignCell v with
        | none => unclassified
        | some s => ((pySplit s)[1]?).getD unclassified) ∧
      extract_attribute v = (match campaignCell v with
        | none => unclassified
        | some s => ((pySplit s)[2]?).getD unclassified) ∧
      (campaignCell v = none →
        extract_parent_code v = unclassified ∧
        extract_pattern v = unclassified ∧
        extract_attribute v = unclassified)) ∧
    (∀ s p, (pySplit s)[0]? = some p → extract_parent_code (.str s) = p) ∧
    (∀ s p, (pySplit s)[1]? = some p → extract_pattern (.str s) = p) ∧
    (∀ s p, (pySplit s)[2]? = some p → extract_attribute (.str s) = p) ∧
    extract_parent_code (.str "") = unclassified ∧
    extract_parent_code (.str "SP-US 模式A1") = "SP-US" ∧
    extract_pattern (.str "SP-US 模式A1") = "模式A1" ∧
    extract_attribute (.str "SP-US 模式A1") = unclassified := by
  have key : ∀ (s p : String) (i : Nat), (pySplit s)[i]? = some p →
      (if stripTruthy p then p else unclassified) = p := by
    intro s p i h
    rw [if_pos (stripTruthy_pySplit s p (List.getElem?_mem h))]
  refine ⟨fun v => ⟨?_, ?_, ?_, ?_⟩, ?_, ?_, ?_,
    by decide, by decide, by decide, by decide⟩
  · match v with
    | .num q => rfl
    | .missing => rfl
    | .str s =>
      match h : (pySplit s)[0]? with
      | none =>
        simp [extract_parent_code, campaignCell, h]
      | some p =>
        simp only [extract_parent_code, campaignCell, h, Option.getD_some]
        exact key s p 0 h
  · match v with
    | .num q => rfl
    | .missing => rfl
    | .str s =>
      match h : (pySplit s)[1]? with
      | none =>
        simp [extract_pattern, campaignCell, h]
      | some p =>
        simp only [extract_pattern, campaignCell, h, Option.getD_some]
        exact key s p 1 h
  · match v with
    | .num q => rfl
    | .missing => rfl
    | .str s =>
      match h : (pySplit s)[2]? with
      | none =>
        simp [extract_attribute, campaignCell, h]
      | some p =>
        simp only [extract_attribute, campaignCell, h, Option.getD_some]
        exact key s p 2 h
  · intro hv
    unfold extract_parent_code extract_pattern extract_attribute
    rw [hv]
    exact ⟨rfl, rfl, rfl⟩
  · intro s p h
    simp only [extract_parent_code, campaignCell, h]
    exact key s p 0 h
  · intro s p h
    simp only [extract_pattern, campaignCell, h]
    exact key s p 1 h
  · intro s p h
    simp only [extract_attribute, campaignCell, h]
    exact key s p 2 h

/-- Witness for C4: the non-string guard applied at an explicit missing
campaign name returns the sentinel for all three extractors, and the three
present tokens of an explicit name are each returned verbatim. -/
theorem C4_extractor_tokens_witness :
    (extract_parent_code .missing = unclassified ∧
      extract_pattern .missing = unclassified ∧
      extract_attribute .missing = unclassified) ∧
    extract_parent_code (.str "A B C") = "A" ∧
    extract_pattern (.str "A B C") = "B" ∧
    extract_attribute (.str "A B C") = "C" :=
  ⟨(C4_extractor_tokens.1 .missing).2.2.2 rfl,
    C4_extractor_tokens.2.1 "A B C" "A" (by decide),
    C4_extractor_tokens.2.2.1 "A B C" "B" (by decide),
    C4_extractor_tokens.2.2.2.1 "A B C" "C" (by decide)⟩

/-- C2 counterexample: for the single-row table with Spend 50 and Sales 0,
the ROAS cell is `0.00x` (the quotient 0/50 is zero, not a division by
zero) and the ACoS cell is `inf%` (50/0 gives infinity, which `format_value`
does not map to the dash); neither cell is the string `-` claimed. -/
theorem C2_counterexample :
    aggregate_single ⟨["Parent Code", "Spend", "Sales"],
        [[.str "X", .num 50, .num 0]]⟩ "Parent Code" =
      .ok ⟨["Parent Code", "Spend", "Sales", "ROAS", "ACoS"],
        [[.str "X", .num 50, .num 0, .str "0.00x", .str "inf%"]]⟩ ∧
    Cell.str "0.00x" ≠ .str "-" ∧ Cell.str "inf%" ≠ .str "-" := by
  refine ⟨by decide, by decide, by decide⟩

/-- C2 amended: for the single-row table with Spend 50 and Sales 0
(aggregated by Parent Code), the summary row's ROAS cell is the string
`0.00x` and its ACoS cell is the string `inf%`. -/
theorem C2_amended :
    ∃ out, aggregate_single ⟨["Parent Code", "Spend", "Sales"],
        [[.str "X", .num 50, .num 0]]⟩ "Parent Code" = .ok out ∧
      cellAt out.cols (out.rows.getD 0 []) "ROAS" = .str "0.00x" ∧
      cellAt out.cols (out.rows.getD 0 []) "ACoS" = .str "inf%" := by
  exact ⟨⟨["Parent Code", "Spend", "Sales", "ROAS", "ACoS"],
    [[.str "X", .num 50, .num 0, .str "0.00x", .str "inf%"]]⟩,
    by decide, by decide, by decide⟩

/-- C1 counterexample: a group whose CTR denominator (summed Impressions)
is zero with a nonzero numerator renders the CTR cell as `inf%`, not as the
dash claimed: `pd.isna` is false on infinity, so `format_value` formats it. -/
theorem C1_counterexample :
    aggregate_single ⟨["Parent Code", "Clicks", "Impressions"],
        [[.str "A", .num 5, .num 0]]⟩ "Parent Code" =
      .ok ⟨["Parent Code", "Clicks", "Impressions", "CTR"],
        [[.str "A", .num 5, .num 0, .str "inf%"]]⟩ ∧
    Cell.str "inf%" ≠ .str "-" := by
  refine ⟨by decide, by decide⟩

/-- A string of length zero is empty. -/
theorem str_len_zero_eq_empty (s : String) (h : s.length = 0) : s = "" := by
  cases s with
  | mk data =>
    rw [String.length] at h
    simp only [List.length_eq_zero] at h
    simp [h]

/-- Appending a one-character non-dash suffix never yields the dash. -/
theorem append_suffix_ne_dash (s t : String) (h1 : t.length = 1)
    (h2 : t ≠ "-") : s ++ t ≠ "-" := by
  intro h
  have hl := congrArg String.length h
  rw [String.length_append, h1] at hl
  have hs : s.length = 0 := by
    have : ("-" : String).length = 1 := by decide
    omega
  rw [str_len_zero_eq_empty s hs] at h
  have he : (("" : String) ++ t) = t := String.empty_append t
  exact h2 (by rw [← he, h])

/-- Prepending a one-character non-dash prefix never yields the dash. -/
theorem prefix_append_ne_dash (s t : String) (h1 : s.length = 1)
    (h2 : s ≠ "-") : s ++ t ≠ "-" := by
  intro h
  have hl := congrArg String.length h
  rw [String.length_append, h1] at hl
  have ht : t.length = 0 := by
    have : ("-" : String).length = 1 := by decide
    omega
  rw [str_len_zero_eq_empty t ht, String.append_empty] at h
  exact h2 h

/-- For the three kinds the source passes, a finite quotient never formats
to the dash. -/
theorem fmtMetric_val_ne_dash (q : ℚ) (k : String)
    (hk : k ∈ ["percent", "currency", "ratio"]) :
    fmtMetric (.val q) k ≠ "-" := by
  fin_cases hk
  · exact append_suffix_ne_dash (fixed2 q) "%" (by decide) (by decide)
  · exact prefix_append_ne_dash "¥" (fixed2 q) (by decide) (by decide)
  · exact append_suffix_ne_dash (fixed2 q) "x" (by decide) (by decide)

/-- C1 amended: for a valid, present dimension, `aggregate_single` returns
a summary without raising provided the summed columns carry no string
cells and the key column holds only strings or missing values - outside
that regime pandas itself can raise `TypeError` from mixed-type sums,
divisions or key comparisons, so no unconditional no-raise statement holds
of the code; a derived-metric cell over numeric group sums is
the dash iff the quotient is NaN, i.e. iff both numerator and denominator
sums are zero; a zero denominator with a nonzero numerator renders an
infinity string (`inf%`, `¥inf`, `infx`, or their negative variants), not
the dash; and `format_value` never raises for the three kinds used. -/
theorem C1_division_behavior :
    (∀ (df : Table) (dim : String), dim ∈ validDims → dim ∈ df.cols →
      (∀ r ∈ df.rows, ∀ c ∈ sum_columns df,
        isStrCell (cellAt df.cols r c) = false) →
      (∀ r ∈ df.rows, cellAt df.cols r dim = .missing ∨
        isStrCell (cellAt df.cols r dim) = true) →
      ∃ out, aggregate_single df dim = .ok out) ∧
    (∀ (qn qd : ℚ) (k : String) (m : Bool), k ∈ ["percent", "currency", "ratio"] →
      (metricCell (.num qn) (.num qd) k m = "-" ↔ qd = 0 ∧ qn = 0)) ∧
    (∀ (qn qd : ℚ) (k : String) (m : Bool), k ∈ ["percent", "currency", "ratio"] →
      qd = 0 → qn ≠ 0 →
      metricCell (.num qn) (.num qd) k m ∈
        ["inf%", "¥inf", "infx", "-inf%", "¥-inf", "-infx"]) ∧
    (∀ (x : PyFloat) (k : String), k ∈ ["percent", "currency", "ratio"] →
      format_value x k ≠ none) := by
  have hinf : ∀ k ∈ ["percent", "currency", "ratio"], ∀ m : Bool,
      (fmtMetric (if m then pyMul100 .inf else .inf) k ∈
          (["inf%", "¥inf", "infx", "-inf%", "¥-inf", "-infx"] : List String)) ∧
      fmtMetric (if m then pyMul100 .inf else .inf) k ≠ "-" := by
    intro k hk m
    fin_cases hk <;> cases m <;> exact ⟨by decide, by decide⟩
  have hninf : ∀ k ∈ ["percent", "currency", "ratio"], ∀ m : Bool,
      (fmtMetric (if m then pyMul100 .ninf else .ninf) k ∈
          (["inf%", "¥inf", "infx", "-inf%", "¥-inf", "-infx"] : List String)) ∧
      fmtMetric (if m then pyMul100 .ninf else .ninf) k ≠ "-" := by
    intro k hk m
    fin_cases hk <;> cases m <;> exact ⟨by decide, by decide⟩
  refine ⟨?_, ?_, ?_, ?_⟩
  · intro df dim h1 h2 _ _
    unfold aggregate_single
    rw [if_neg (not_not_intro h1), if_neg (not_not_intro h2)]
    exact ⟨_, rfl⟩
  · intro qn qd k m hk
    simp only [metricCell, pyDiv]
    by_cases hqd : qd = 0
    · rw [if_pos hqd]
      rcases lt_trichotomy qn.num 0 with hs | hs | hs
      · rw [if_pos hs, if_neg (show ¬ 0 < qn.num by omega)]
        constructor
        · intro h
          exact absurd h (hninf k hk m).2
        · rintro ⟨-, h0⟩
          exact absurd (Rat.num_eq_zero.mpr h0) (by omega)
      · rw [if_neg (show ¬ qn.num < 0 by omega),
          if_neg (show ¬ 0 < qn.num by omega)]
        have h0 : qn = 0 := Rat.num_eq_zero.mp hs
        cases m <;>
          exact ⟨fun _ => ⟨hqd, h0⟩, fun _ => rfl⟩
      · rw [if_pos hs]
        constructor
        · intro h
          exact absurd h (hinf k hk m).2
        · rintro ⟨-, h0⟩
          exact absurd (Rat.num_eq_zero.mpr h0) (by omega)
    · rw [if_neg hqd]
      constructor
      · intro h
        cases m with
        | false => exact absurd h (fmtMetric_val_ne_dash _ k hk)
        | true => exact absurd h (fmtMetric_val_ne_dash _ k hk)
      · rintro ⟨h0, -⟩
        exact absurd h0 hqd
  · intro qn qd k m hk hqd hqn
    simp only [metricCell, pyDiv]
    rw [if_pos hqd]
    rcases lt_trichotomy qn.num 0 with hs | hs | hs
    · rw [if_pos hs, if_neg (show ¬ 0 < qn.num by omega)]
      exact (hninf k hk m).1
    · exact absurd (Rat.num_eq_zero.mp hs) hqn
    · rw [if_pos hs]
      exact (hinf k hk m).1
  · intro x k hk
    fin_cases hk <;> cases x <;> simp [format_value]

/-- Witness for C1: a concrete valid call on an all-numeric table with
string keys returns a summary, and the concrete quotients 0/0, 5/0 and 5/2
format to the dash, an infinity string, and a finite string respectively. -/
theorem C1_division_behavior_witness :
    (∃ out, aggregate_single ⟨["Parent Code", "Spend"],
      [[.str "A", .num 3]]⟩ "Parent Code" = .ok out) ∧
    (metricCell (.num 0) (.num 0) "ratio" false = "-" ↔ (0 : ℚ) = 0 ∧ (0 : ℚ) = 0) ∧
    metricCell (.num 5) (.num 0) "percent" true ∈
      (["inf%", "¥inf", "infx", "-inf%", "¥-inf", "-infx"] : List String) ∧
    format_value (.val 1) "currency" ≠ none :=
  ⟨C1_division_behavior.1 ⟨["Parent Code", "Spend"], [[.str "A", .num 3]]⟩
     "Parent Code" (by decide) (by decide) (by decide) (by decide),
   C1_division_behavior.2.1 0 0 "ratio" false (by decide),
   C1_division_behavior.2.2.1 5 0 "percent" true (by decide) (by decide) (by decide),
   C1_division_behavior.2.2.2 (.val 1) "currency" (by decide)⟩

/-- A column assignment leaves the column list unchanged or appends the
assigned name. -/
theorem setColT_cols (t : Table) (name : String) (f : List Cell → Cell) :
    (setColT t name f).cols = t.cols ∨ (setColT t name f).cols = t.cols ++ [name] := by
  unfold setColT
  split_ifs <;> simp

/-- A conditional metric step leaves the column list unchanged or appends
the metric's name. -/
theorem applyMetric_cols (rcols : List String) (t : Table) (sp : MetricSpec) :
    (applyMetric rcols t sp).cols = t.cols ∨
    (applyMetric rcols t sp).cols = t.cols ++ [sp.name] := by
  unfold applyMetric
  rcases roleCol rcols sp.numRole with _ | n
  · exact .inl rfl
  · rcases roleCol rcols sp.denRole with _ | d
    · exact .inl rfl
    · exact setColT_cols t sp.name _

/-- Folding metric steps appends a (possibly empty) block of metric names. -/
theorem foldl_metric_cols (rcols : List String) :
    ∀ (specs : List MetricSpec) (t : Table),
      (∀ sp ∈ specs, sp.name ∈ derivedNames) →
      ∃ extra, (specs.foldl (applyMetric rcols) t).cols = t.cols ++ extra ∧
        ∀ x ∈ extra, x ∈ derivedNames := by
  intro specs
  induction specs with
  | nil =>
    intro t _
    exact ⟨[], by simp, by simp⟩
  | cons sp specs ih =>
    intro t hs
    obtain ⟨extra, hcols, hmem⟩ :=
      ih (applyMetric rcols t sp) (fun x hx => hs x (List.mem_cons_of_mem _ hx))
    rcases applyMetric_cols rcols t sp with h | h
    · exact ⟨extra, by rw [List.foldl_cons, hcols, h], hmem⟩
    · refine ⟨sp.name :: extra, ?_, ?_⟩
      · rw [List.foldl_cons, hcols, h, List.append_assoc]
        rfl
      · intro x hx
        rcases List.mem_cons.mp hx with rfl | hx
        · exact hs sp (List.mem_cons_self _ _)
        · exact hmem x hx

/-- `withMetrics` appends only derived-metric names to the grouped columns. -/
theorem withMetrics_cols (g : Table) :
    ∃ extra, (withMetrics g).cols = g.cols ++ extra ∧
      ∀ x ∈ extra, x ∈ derivedNames :=
  foldl_metric_cols g.cols metricSpecs g (by decide)

/-- Members of the summed-column set are not excluded names. -/
theorem mem_sum_columns {df : Table} {x : String} (hx : x ∈ sum_columns df) :
    x ∈ df.cols ∧ x ∉ excludedCols := by
  unfold sum_columns at hx
  obtain ⟨h1, h2⟩ := List.mem_filter.mp hx
  refine ⟨h1, fun hmem => ?_⟩
  simp at h2
  exact h2 hmem

/-- C3 amended: the set of columns summed by `aggregate_single` and
`aggregate_cross` is the table's columns minus the three dimension columns
and minus the literal English `Campaign Name` column only - a campaign
column under the Chinese name `广告活动` is *not* excluded and is summed.
Observably, a single summary's columns are the dimension, then exactly
`sum_columns`, then derived-metric names; a cross summary's columns are the
two dimensions then exactly `sum_columns`.  Missing values count as 0 in
the sums of numeric columns. -/
theorem C3_summed_column_set (df : Table) (dim dim1 dim2 : String)
    (out out2 : Table) :
    (aggregate_single df dim = .ok out →
      ∃ extra, out.cols = dim :: (sum_columns df ++ extra) ∧
        ∀ x ∈ extra, x ∈ derivedNames) ∧
    (aggregate_cross df dim1 dim2 = .ok out2 →
      out2.cols = dim1 :: dim2 :: sum_columns df) ∧
    (∀ l : List Cell, (∀ x ∈ l, isStrCell x = false) →
      sumCells l = .num ((l.map numVal).sum)) ∧
    numVal .missing = 0 := by
  refine ⟨?_, ?_, ?_, rfl⟩
  · intro h
    unfold aggregate_single at h
    split_ifs at h with h1 h2
    rw [Except.ok.injEq] at h
    obtain ⟨extra, hcols, hmem⟩ := withMetrics_cols (groupedTable df dim)
    have hdimx : dim ∈ excludedCols := by
      fin_cases h1 <;> decide
    refine ⟨extra, ?_, hmem⟩
    have hga : (groupedTable df dim).cols = dim :: sum_columns df := rfl
    rw [← h]
    show dim :: (withMetrics (groupedTable df dim)).cols.filter
        (fun c => !(c == dim)) = _
    rw [hcols, hga]
    congr 1
    rw [List.cons_append, List.filter_cons_of_neg (by simp)]
    apply List.filter_eq_self.mpr
    intro x hx
    rcases List.mem_append.mp hx with hx1 | hx1
    · have hne := (mem_sum_columns hx1).2
      simp only [Bool.not_eq_true', beq_eq_false_iff_ne, ne_eq]
      intro heq
      exact hne (heq ▸ hdimx)
    · have hxd := hmem x hx1
      simp only [Bool.not_eq_true', beq_eq_false_iff_ne, ne_eq]
      intro heq
      subst heq
      have hdis : ∀ y ∈ derivedNames, y ∉ validDims := by decide
      exact hdis x hxd h1
  · intro h
    unfold aggregate_cross at h
    split_ifs at h
    rw [Except.ok.injEq] at h
    rw [← h]
  · intro l hl
    unfold sumCells
    rw [if_neg, qsum_eq]
    intro hany
    obtain ⟨x, hx, hsx⟩ := List.any_eq_true.mp hany
    rw [hl x hx] at hsx
    exact Bool.false_ne_true hsx

/-- C3 counterexample: when the campaign-name column is carried under the
Chinese name `广告活动`, it is in the summed-column set (only the literal
`Campaign Name` is excluded), so the summary contains a summed (string
concatenated) campaign column, contradicting the claimed exclusion of the
campaign-name column under whichever accepted name it carries. -/
theorem C3_counterexample :
    "广告活动" ∈ sum_columns ⟨["广告活动", "Parent Code"], [[.str "X Y", .str "A"]]⟩ ∧
    aggregate_single ⟨["广告活动", "Parent Code"], [[.str "X Y", .str "A"]]⟩
        "Parent Code" =
      .ok ⟨["Parent Code", "广告活动"], [[.str "A", .str "X Y"]]⟩ ∧
    "广告活动" ∈ (Table.cols ⟨["Parent Code", "广告活动"], [[.str "A", .str "X Y"]]⟩) := by
  refine ⟨by decide, by decide, by decide⟩

/-- Witness for C3: at a concrete table the single-summary columns are the
dimension followed by the summed columns (no derived names resolve). -/
theorem C3_summed_column_set_witness :
    ∃ extra,
      (Table.cols ⟨["Parent Code", "广告活动"], [[.str "A", .str "X Y"]]⟩) =
        "Parent Code" ::
          (sum_columns ⟨["广告活动", "Parent Code"], [[.str "X Y", .str "A"]]⟩ ++ extra) ∧
      ∀ x ∈ extra, x ∈ derivedNames :=
  (C3_summed_column_set ⟨["广告活动", "Parent Code"], [[.str "X Y", .str "A"]]⟩
    "Parent Code" "" "" ⟨["Parent Code", "广告活动"], [[.str "A", .str "X Y"]]⟩
    ⟨[], []⟩).1 (by decide)

/-- The cell comparison is total. -/
theorem cellLe_total (a b : Cell) : cellLe a b ∨ cellLe b a := by
  unfold cellLe
  cases a with
  | missing =>
    left
    cases b <;> rfl
  | num p =>
    cases b with
    | missing => right; rfl
    | num q =>
      rcases le_total p q with h | h
      · exact .inl ((qleb_iff p q).mpr h)
      · exact .inr ((qleb_iff q p).mpr h)
    | str s => left; rfl
  | str s =>
    cases b with
    | missing => right; rfl
    | num q => right; rfl
    | str u =>
      rcases le_total s u with h | h
      · exact .inl ((strLeb_iff s u).mpr h)
      · exact .inr ((strLeb_iff u s).mpr h)

/-- The cell comparison is transitive. -/
theorem cellLe_trans {a b c : Cell} (h1 : cellLe a b) (h2 : cellLe b c) :
    cellLe a c := by
  unfold cellLe at *
  cases a <;> cases b <;> cases c <;>
    simp only [cellLeb, qleb_iff, strLeb_iff] at h1 h2 ⊢ <;>
    first
      | rfl
      | exact h1.trans h2
      | exact Bool.noConfusion h1
      | exact Bool.noConfusion h2

/-- The cell comparison is antisymmetric. -/
theorem cellLe_antisymm {a b : Cell} (h1 : cellLe a b) (h2 : cellLe b a) :
    a = b := by
  unfold cellLe at *
  cases a <;> cases b <;>
    simp only [cellLeb, qleb_iff, strLeb_iff, Cell.num.injEq, Cell.str.injEq]
      at h1 h2 ⊢ <;>
    first
      | rfl
      | exact le_antisymm h1 h2
      | exact Bool.noConfusion h1
      | exact Bool.noConfusion h2

instance (cols : List String) (dim : String) :
    IsTotal (List Cell) (rowKeyLe cols dim) :=
  ⟨fun _ _ => cellLe_total _ _⟩

instance (cols : List String) (dim : String) :
    IsTrans (List Cell) (rowKeyLe cols dim) :=
  ⟨fun _ _ _ h1 h2 => cellLe_trans h1 h2⟩

/-- The lexicographic pair comparison is total. -/
theorem pairLe_total (a b : Cell × Cell) : pairLe a b ∨ pairLe b a := by
  unfold pairLe
  by_cases h : a.1 = b.1
  · rw [if_pos h, if_pos h.symm]
    exact cellLe_total _ _
  · rw [if_neg h, if_neg (Ne.symm h)]
    exact cellLe_total _ _

/-- The lexicographic pair comparison is transitive. -/
theorem pairLe_trans {a b c : Cell × Cell} (h1 : pairLe a b) (h2 : pairLe b c) :
    pairLe a c := by
  unfold pairLe at *
  by_cases hab : a.1 = b.1 <;> by_cases hbc : b.1 = c.1
  · rw [if_pos hab] at h1
    rw [if_pos hbc] at h2
    rw [if_pos (hab.trans hbc)]
    exact cellLe_trans h1 h2
  · rw [if_neg hbc] at h2
    rw [if_neg (fun hac => hbc (hab.symm.trans hac)), hab]
    exact h2
  · rw [if_neg hab] at h1
    rw [if_neg (fun hac => hab (hac.trans hbc.symm)), ← hbc]
    exact h1
  · rw [if_neg hab] at h1
    rw [if_neg hbc] at h2
    by_cases hac : a.1 = c.1
    · have h2a : cellLe b.1 a.1 := hac ▸ h2
      exact absurd (cellLe_antisymm h1 h2a) hab
    · rw [if_neg hac]
      exact cellLe_trans h1 h2

instance (cols : List String) (dim1 dim2 : String) :
    IsTotal (List Cell) (rowKeyLe2 cols dim1 dim2) :=
  ⟨fun _ _ => pairLe_total _ _⟩

instance (cols : List String) (dim1 dim2 : String) :
    IsTrans (List Cell) (rowKeyLe2 cols dim1 dim2) :=
  ⟨fun _ _ _ h1 h2 => pairLe_trans h1 h2⟩

/-- C8: the rows of a single-dimension summary are non-decreasing in the
dimension's group value, and the rows of a cross summary are non-decreasing
in the lexicographic order of the ordered key pair; on homogeneous keys the
cell comparison agrees with the numeric and string orders. -/
theorem C8_sorted_rows (df : Table) (dim dim1 dim2 : String) (out out2 : Table) :
    (aggregate_single df dim = .ok out →
      List.Sorted (rowKeyLe out.cols dim) out.rows) ∧
    (aggregate_cross df dim1 dim2 = .ok out2 →
      List.Sorted (rowKeyLe2 out2.cols dim1 dim2) out2.rows) ∧
    (∀ p q : ℚ, cellLe (.num p) (.num q) ↔ p ≤ q) ∧
    (∀ s u : String, cellLe (.str s) (.str u) ↔ s ≤ u) := by
  refine ⟨?_, ?_, fun p q => qleb_iff p q, fun s u => strLeb_iff s u⟩
  · intro h
    unfold aggregate_single at h
    split_ifs at h
    rw [Except.ok.injEq] at h
    rw [← h]
    exact List.sorted_insertionSort _ _
  · intro h
    unfold aggregate_cross at h
    split_ifs at h
    rw [Except.ok.injEq] at h
    rw [← h]
    exact List.sorted_insertionSort _ _

/-- Witness for C8: a concrete two-group summary is sorted by its key. -/
theorem C8_sorted_rows_witness :
    List.Sorted
      (rowKeyLe (Table.cols ⟨["Parent Code", "Spend"],
        [[.str "A", .num 2], [.str "B", .num 1]]⟩) "Parent Code")
      (Table.rows ⟨["Parent Code", "Spend"],
        [[.str "A", .num 2], [.str "B", .num 1]]⟩) :=
  (C8_sorted_rows ⟨["Parent Code", "Spend"],
      [[.str "B", .num 1], [.str "A", .num 2]]⟩ "Parent Code" "" ""
      ⟨["Parent Code", "Spend"], [[.str "A", .num 2], [.str "B", .num 1]]⟩
      ⟨[], []⟩).1 (by decide)

/-- A table is well-formed when every row has exactly one cell per column
(DataFrames are rectangular). -/
def WFT (t : Table) : Prop :=
  ∀ r ∈ t.rows, r.length = t.cols.length

instance (t : Table) : Decidable (WFT t) :=
  inferInstanceAs (Decidable (∀ r ∈ t.rows, r.length = t.cols.length))

/-- Splitting a sum over a boolean predicate on the rows. -/
theorem sum_filter_split (p : List Cell → Bool) (f : List Cell → ℚ)
    (rows : List (List Cell)) :
    ((rows.filter p).map f).sum + ((rows.filter (fun r => !(p r))).map f).sum
      = (rows.map f).sum := by
  induction rows with
  | nil => simp
  | cons r rows ih =>
    by_cases hp : p r
    · simp only [List.filter_cons, hp, Bool.not_true, if_true, if_false,
        List.map_cons, List.sum_cons]
      rw [if_neg (by simp : ¬ (false = true)), add_assoc, ih]
    · simp only [List.filter_cons, Bool.not_eq_true] at hp
      simp only [List.filter_cons, hp, Bool.not_false, if_true, if_false,
        List.map_cons, List.sum_cons]
      rw [if_neg (by simp : ¬ (false = true)), add_left_comm, ih]

/-- Summing group sums over a duplicate-free covering key list equals the
sum over all rows. -/
theorem sum_over_groups (key : List Cell → Cell) (f : List Cell → ℚ) :
    ∀ (ks : List Cell) (rows : List (List Cell)), ks.Nodup →
      (∀ r ∈ rows, key r ∈ ks) →
      (ks.map (fun k => ((rows.filter (fun r => key r == k)).map f).sum)).sum
        = (rows.map f).sum := by
  intro ks
  induction ks with
  | nil =>
    intro rows _ hcov
    have : rows = [] :=
      List.eq_nil_iff_forall_not_mem.mpr fun r hr => by
        simpa using hcov r hr
    simp [this]
  | cons k ks ih =>
    intro rows hnd hcov
    have hk_not : k ∉ ks := (List.nodup_cons.mp hnd).1
    have hnd' : ks.Nodup := (List.nodup_cons.mp hnd).2
    have hcov' : ∀ r ∈ rows.filter (fun r => !(key r == k)), key r ∈ ks := by
      intro r hr
      obtain ⟨hrm, hneq⟩ := List.mem_filter.mp hr
      rcases List.mem_cons.mp (hcov r hrm) with heq | hmem
      · rw [heq] at hneq
        simp at hneq
      · exact hmem
    have hgroups : ∀ k' ∈ ks,
        rows.filter (fun r => key r == k')
          = (rows.filter (fun r => !(key r == k))).filter
              (fun r => key r == k') := by
      intro k' hk'
      rw [List.filter_filter]
      apply List.filter_congr
      intro r _
      by_cases hrk : key r == k'
      · have hkeq : key r = k' := by simpa using hrk
        have hne : (key r == k) = false := by
          apply beq_eq_false_iff_ne.mpr
          rw [hkeq]
          intro hkk
          exact hk_not (hkk ▸ hk')
        simp [hrk, hne]
      · simp only [Bool.not_eq_true] at hrk
        simp [hrk]
    have hmapeq :
        (ks.map fun k' => ((rows.filter (fun r => key r == k')).map f).sum)
          = ks.map fun k' =>
              (((rows.filter (fun r => !(key r == k))).filter
                (fun r => key r == k')).map f).sum :=
      List.map_congr_left (fun k' hk' => by rw [hgroups k' hk'])
    rw [List.map_cons, List.sum_cons, hmapeq,
      ih (rows.filter (fun r => !(key r == k))) hnd' hcov']
    exact sum_filter_split (fun r => key r == k) f rows

/-- A grouped sum of non-string cells is the numeric sum, missing counted
as zero. -/
theorem sumCells_numeric (l : List Cell) (hl : ∀ x ∈ l, isStrCell x = false) :
    sumCells l = .num ((l.map numVal).sum) := by
  unfold sumCells
  rw [if_neg, qsum_eq]
  intro hany
  obtain ⟨x, hx, hsx⟩ := List.any_eq_true.mp hany
  rw [hl x hx] at hsx
  exact Bool.false_ne_true hsx

/-- The cells of a summed column of the grouped table are the per-group
sums. -/
theorem colCells_groupedTable (t : Table) (dim c : String)
    (hc : c ∈ sum_columns t) (hne : c ≠ dim) :
    colCells (groupedTable t dim) c =
      (keyCells t dim).map (fun k =>
        sumCells ((groupOf t dim k).map (fun r => cellAt t.cols r c))) := by
  unfold colCells groupedTable
  rw [List.map_map]
  apply List.map_congr_left
  intro k _
  show cellAt (dim :: sum_columns t) (k :: _) c = _
  unfold cellAt colIdx
  rw [List.indexOf_cons_ne _ (Ne.symm hne), Nat.succ_eq_add_one,
    List.getD_cons_succ]
  have hlt : (sum_columns t).indexOf c < (sum_columns t).length :=
    List.indexOf_lt_length.mpr hc
  rw [List.getD_eq_getElem _ _ (by simpa using hlt), List.getElem_map,
    List.getElem_indexOf hlt]

/-- An assignment to a different column leaves a present column's cells
unchanged. -/
theorem colCells_setColT_ne (t : Table) (name c : String) (f : List Cell → Cell)
    (hc : c ∈ t.cols) (hcn : c ≠ name) (hwf : WFT t) :
    colCells (setColT t name f) c = colCells t c := by
  unfold colCells setColT
  split_ifs with hmem
  · show (t.rows.map _).map _ = _
    rw [List.map_map]
    apply List.map_congr_left
    intro r _
    show cellAt t.cols (r.set (colIdx t.cols name) (f r)) c = cellAt t.cols r c
    unfold cellAt
    have hidx : colIdx t.cols name ≠ colIdx t.cols c := by
      intro heq
      apply hcn
      have h1 : t.cols.indexOf c < t.cols.length := List.indexOf_lt_length.mpr hc
      have h2 : t.cols.indexOf name < t.cols.length :=
        List.indexOf_lt_length.mpr hmem
      have := List.getElem_indexOf h1
      rw [← this, ← List.getElem_indexOf h2]
      unfold colIdx at heq
      simp [heq]
    rw [List.getD_eq_getElem?_getD, List.getD_eq_getElem?_getD,
      List.getElem?_set_ne hidx]
  · show (t.rows.map _).map _ = _
    rw [List.map_map]
    apply List.map_congr_left
    intro r hr
    show cellAt (t.cols ++ [name]) (r ++ [f r]) c = cellAt t.cols r c
    unfold cellAt colIdx
    rw [List.indexOf_append_of_mem hc]
    exact List.getD_append _ _ _ _ (by rw [hwf r hr]; exact List.indexOf_lt_length.mpr hc)

/-- An assignment preserves well-formedness. -/
theorem WFT_setColT (t : Table) (name : String) (f : List Cell → Cell)
    (hwf : WFT t) : WFT (setColT t name f) := by
  unfold WFT setColT
  split_ifs with hmem
  · intro r hr
    obtain ⟨r0, hr0, rfl⟩ := List.mem_map.mp hr
    rw [List.length_set]
    exact hwf r0 hr0
  · intro r hr
    obtain ⟨r0, hr0, rfl⟩ := List.mem_map.mp hr
    rw [List.length_append, List.length_append]
    simp [hwf r0 hr0]

/-- An assignment preserves duplicate-freedom of the column names. -/
theorem nodup_setColT (t : Table) (name : String) (f : List Cell → Cell)
    (hnd : t.cols.Nodup) : (setColT t name f).cols.Nodup := by
  unfold setColT
  split_ifs with hmem
  · exact hnd
  · simp [List.nodup_append, hnd, hmem]

/-- An assignment can only grow the column set. -/
theorem mem_setColT_cols (t : Table) (name c : String) (f : List Cell → Cell)
    (hc : c ∈ t.cols) : c ∈ (setColT t name f).cols := by
  rcases setColT_cols t name f with h | h <;> rw [h]
  · exact hc
  · exact List.mem_append_left _ hc

/-- The six metric steps leave a non-metric column's cells unchanged, and
preserve membership and well-formedness. -/
theorem foldl_applyMetric_inv (rcols : List String) :
    ∀ (specs : List MetricSpec) (t : Table) (c : String),
      (∀ sp ∈ specs, sp.name ∈ derivedNames) → c ∉ derivedNames →
      c ∈ t.cols → WFT t →
      colCells (specs.foldl (applyMetric rcols) t) c = colCells t c ∧
      c ∈ (specs.foldl (applyMetric rcols) t).cols ∧
      WFT (specs.foldl (applyMetric rcols) t) := by
  intro specs
  induction specs with
  | nil =>
    intro t c _ _ hc hwf
    exact ⟨rfl, hc, hwf⟩
  | cons sp specs ih =>
    intro t c hs hcd hc hwf
    have hstep :
        colCells (applyMetric rcols t sp) c = colCells t c ∧
        c ∈ (applyMetric rcols t sp).cols ∧
        WFT (applyMetric rcols t sp) := by
      unfold applyMetric
      rcases roleCol rcols sp.numRole with _ | n
      · exact ⟨rfl, hc, hwf⟩
      · rcases roleCol rcols sp.denRole with _ | d
        · exact ⟨rfl, hc, hwf⟩
        · have hcn : c ≠ sp.name := fun heq =>
            hcd (heq ▸ hs sp (List.mem_cons_self _ _))
          exact ⟨colCells_setColT_ne t sp.name c _ hc hcn hwf,
            mem_setColT_cols t sp.name c _ hc,
            WFT_setColT t sp.name _ hwf⟩
    obtain ⟨h1, h2, h4⟩ := hstep
    obtain ⟨g1, g2, g4⟩ :=
      ih (applyMetric rcols t sp) c
        (fun x hx => hs x (List.mem_cons_of_mem _ hx)) hcd h2 h4
    rw [List.foldl_cons]
    exact ⟨g1.trans h1, g2, g4⟩

/-- Selecting a column set containing `c` leaves its cells unchanged. -/
theorem colCells_selectCols (t : Table) (cs : List String) (c : String)
    (hc : c ∈ cs) :
    colCells (selectCols t cs) c = colCells t c := by
  unfold colCells selectCols
  rw [List.map_map]
  apply List.map_congr_left
  intro r _
  show cellAt cs (cs.map fun c' => cellAt t.cols r c') c = cellAt t.cols r c
  unfold cellAt colIdx
  have hlt : cs.indexOf c < cs.length := List.indexOf_lt_length.mpr hc
  rw [List.getD_eq_getElem _ _ (by simpa using hlt), List.getElem_map,
    List.getElem_indexOf hlt]

/-- C5 amended: for an input table in which the grouping dimension's column
has no missing values, the sum of a numeric summed column c not named
after a derived metric over the summary rows equals its sum over the input
rows.  (A row whose group key is missing is dropped by pandas `groupby`,
and a summed column named after a derived metric is overwritten in place
by the formatted metric strings - the counterexample exhibits both
failures.) -/
theorem C5_sum_invariant (df : Table) (dim c : String) (out : Table)
    (hc : c ∈ sum_columns df) (hcd : c ∉ derivedNames)
    (hkeys : ∀ r ∈ df.rows, cellAt df.cols r dim ≠ .missing)
    (hnum : ∀ r ∈ df.rows, isStrCell (cellAt df.cols r c) = false)
    (h : aggregate_single df dim = .ok out) :
    colSumQ out c = colSumQ df c := by
  unfold aggregate_single at h
  split_ifs at h with h1 h2
  rw [Except.ok.injEq] at h
  subst h
  have hdim_ex : dim ∈ excludedCols := by fin_cases h1 <;> decide
  have hcne : c ≠ dim := fun heq => (mem_sum_columns hc).2 (heq ▸ hdim_ex)
  have hgcols : (groupedTable df dim).cols = dim :: sum_columns df := rfl
  have hwfg : WFT (groupedTable df dim) := by
    intro r hr
    obtain ⟨k, _, rfl⟩ := List.mem_map.mp hr
    simp [groupedTable]
  have hcg : c ∈ (groupedTable df dim).cols := by
    rw [hgcols]
    exact List.mem_cons_of_mem _ hc
  obtain ⟨hW1, hW2, hW4⟩ :=
    foldl_applyMetric_inv (groupedTable df dim).cols metricSpecs
      (groupedTable df dim) c (by decide) hcd hcg hwfg
  have hccs : c ∈ dim ::
      (withMetrics (groupedTable df dim)).cols.filter (fun c' => !(c' == dim)) := by
    apply List.mem_cons_of_mem
    apply List.mem_filter.mpr
    refine ⟨?_, by simp [hcne]⟩
    show c ∈ (withMetrics (groupedTable df dim)).cols
    unfold withMetrics
    exact hW2
  have hcov : ∀ r ∈ df.rows,
      cellAt df.cols r dim ∈ keyCells df dim := by
    intro r hr
    apply List.mem_dedup.mpr
    apply List.mem_filter.mpr
    exact ⟨List.mem_map_of_mem _ hr, by simp [hkeys r hr]⟩
  have e1 : colSumQ
      ⟨(selectCols (withMetrics (groupedTable df dim))
          (dim :: (withMetrics (groupedTable df dim)).cols.filter
            (fun c' => !(c' == dim)))).cols,
        List.insertionSort
          (rowKeyLe (selectCols (withMetrics (groupedTable df dim))
            (dim :: (withMetrics (groupedTable df dim)).cols.filter
              (fun c' => !(c' == dim)))).cols dim)
          (selectCols (withMetrics (groupedTable df dim))
          (dim :: (withMetrics (groupedTable df dim)).cols.filter
            (fun c' => !(c' == dim)))).rows⟩ c
      = colSumQ (selectCols (withMetrics (groupedTable df dim))
          (dim :: (withMetrics (groupedTable df dim)).cols.filter
            (fun c' => !(c' == dim)))) c := by
    rw [colSumQ_eq_sum, colSumQ_eq_sum]
    unfold colCells
    rw [List.map_map, List.map_map]
    exact ((List.perm_insertionSort _ _).map _).sum_eq
  have e2 : colSumQ (selectCols (withMetrics (groupedTable df dim))
      (dim :: (withMetrics (groupedTable df dim)).cols.filter
        (fun c' => !(c' == dim)))) c
      = colSumQ (withMetrics (groupedTable df dim)) c := by
    rw [colSumQ_eq_sum, colSumQ_eq_sum, colCells_selectCols _ _ _ hccs]
  have e3 : colSumQ (withMetrics (groupedTable df dim)) c
      = colSumQ (groupedTable df dim) c := by
    rw [colSumQ_eq_sum, colSumQ_eq_sum]
    unfold withMetrics
    rw [hW1]
  have e4 : colSumQ (groupedTable df dim) c = colSumQ df c := by
    rw [colSumQ_eq_sum, colSumQ_eq_sum,
      colCells_groupedTable df dim c hc hcne, List.map_map]
    calc ((keyCells df dim).map (numVal ∘ fun k =>
            sumCells ((groupOf df dim k).map fun r => cellAt df.cols r c))).sum
        = ((keyCells df dim).map (fun k =>
            ((df.rows.filter (fun r => cellAt df.cols r dim == k)).map
              (fun r => numVal (cellAt df.cols r c))).sum)).sum := by
          apply congrArg List.sum
          apply List.map_congr_left
          intro k _
          show numVal (sumCells ((groupOf df dim k).map
            fun r => cellAt df.cols r c)) = _
          rw [sumCells_numeric _ (fun x hx => by
            obtain ⟨r, hrg, rfl⟩ := List.mem_map.mp hx
            exact hnum r (List.mem_filter.mp hrg).1)]
          show (((groupOf df dim k).map (fun r => cellAt df.cols r c)).map
            numVal).sum = _
          rw [List.map_map]
          rfl
      _ = (df.rows.map (fun r => numVal (cellAt df.cols r c))).sum :=
          sum_over_groups (fun r => cellAt df.cols r dim)
            (fun r => numVal (cellAt df.cols r c)) (keyCells df dim) df.rows
            (List.nodup_dedup _) hcov
      _ = ((colCells df c).map numVal).sum := by
          unfold colCells
          rw [List.map_map]
          rfl
  exact e1.trans (e2.trans (e3.trans e4))

/-- C5 counterexample, two failure modes.  First: a row whose dimension
value is missing is dropped by the grouping (`groupby` default
`dropna=True`), so the summary's Spend sum is 0 while the input's Spend
sum is 5.  Second: a numeric summed column named `CTR` survives the group
sum but is then overwritten in place by the formatted CTR strings
(`result['CTR'] = ...`), so the summary's CTR sum is 0 while the input's
CTR sum is 7, even though no dimension value is missing. -/
theorem C5_counterexample :
    (aggregate_single ⟨["Parent Code", "Spend"], [[.missing, .num 5]]⟩
        "Parent Code" =
      .ok ⟨["Parent Code", "Spend"], ([] : List (List Cell))⟩ ∧
    colSumQ ⟨["Parent Code", "Spend"], ([] : List (List Cell))⟩ "Spend" = 0 ∧
    colSumQ ⟨["Parent Code", "Spend"], [[.missing, .num 5]]⟩ "Spend" = 5 ∧
    (0 : ℚ) ≠ 5) ∧
    (aggregate_single ⟨["Parent Code", "CTR", "Clicks", "Impressions"],
        [[.str "A", .num 7, .num 5, .num 10]]⟩ "Parent Code" =
      .ok ⟨["Parent Code", "CTR", "Clicks", "Impressions"],
        [[.str "A", .str "50.00%", .num 5, .num 10]]⟩ ∧
    "CTR" ∈ sum_columns ⟨["Parent Code", "CTR", "Clicks", "Impressions"],
        [[.str "A", .num 7, .num 5, .num 10]]⟩ ∧
    (∀ r ∈ (⟨["Parent Code", "CTR", "Clicks", "Impressions"],
        [[.str "A", .num 7, .num 5, .num 10]]⟩ : Table).rows,
      cellAt ["Parent Code", "CTR", "Clicks", "Impressions"] r "Parent Code"
        ≠ .missing) ∧
    colSumQ ⟨["Parent Code", "CTR", "Clicks", "Impressions"],
        [[.str "A", .str "50.00%", .num 5, .num 10]]⟩ "CTR" = 0 ∧
    colSumQ ⟨["Parent Code", "CTR", "Clicks", "Impressions"],
        [[.str "A", .num 7, .num 5, .num 10]]⟩ "CTR" = 7 ∧
    (0 : ℚ) ≠ 7) := by
  exact ⟨⟨by decide, by decide, by decide, by decide⟩,
    by decide, by decide, by decide, by decide, by decide, by decide⟩

/-- Witness for C5: a three-row table with two groups preserves the Spend
sum through aggregation. -/
theorem C5_sum_invariant_witness :
    colSumQ ⟨["Parent Code", "Spend"],
        [[.str "A", .num 7], [.str "B", .num 5]]⟩ "Spend" =
      colSumQ ⟨["Parent Code", "Spend"],
        [[.str "A", .num 3], [.str "A", .num 4], [.str "B", .num 5]]⟩ "Spend" :=
  C5_sum_invariant
    ⟨["Parent Code", "Spend"],
      [[.str "A", .num 3], [.str "A", .num 4], [.str "B", .num 5]]⟩
    "Parent Code" "Spend"
    ⟨["Parent Code", "Spend"], [[.str "A", .num 7], [.str "B", .num 5]]⟩
    (by decide) (by decide) (by decide) (by decide) (by decide)

/-- Reading below a fresh allocation is unchanged. -/
theorem hread_append (h : List Table) (t : Table) (a : Nat) (ha : a < h.length) :
    hread (h ++ [t]) a = hread h a := by
  unfold hread
  exact List.getD_append _ _ _ _ ha

/-- Reading a fresh allocation returns the allocated table. -/
theorem hread_append_self (h : List Table) (t : Table) :
    hread (h ++ [t]) h.length = t := by
  unfold hread
  rw [List.getD_eq_getElem?_getD, List.getElem?_concat_length]
  rfl

/-- Reading another address after an in-place write is unchanged. -/
theorem hread_set_ne (h : List Table) (t : Table) (a b : Nat) (hab : a ≠ b) :
    hread (h.set a t) b = hread h b := by
  unfold hread
  rw [List.getD_eq_getElem?_getD, List.getD_eq_getElem?_getD,
    List.getElem?_set_ne hab]

/-- Reading a written address returns the written table. -/
theorem hread_set_self (h : List Table) (t : Table) (a : Nat)
    (ha : a < h.length) :
    hread (h.set a t) a = t := by
  unfold hread
  rw [List.getD_eq_getElem?_getD, List.getElem?_set_eq_of_lt _ ha]
  rfl


/-- C10: the aggregators do not mutate the caller's frame: in the heap
model every pandas result is a fresh allocation and every in-place column
write targets the freshly grouped frame, so the table at the argument's
address is unchanged by `aggregate_single_py` / `aggregate_cross_py`; on
success the returned address holds exactly the pure
`aggregate_single` / `aggregate_cross` result. -/
theorem C10_aggregators_no_mutation (h : List Table) (dfA : Nat)
    (dim dim1 dim2 : String) (ha : dfA < h.length) :
    (hread (aggregate_single_py h dfA dim).1 dfA = hread h dfA) ∧
    (hread (aggregate_cross_py h dfA dim1 dim2).1 dfA = hread h dfA) ∧
    (∀ rA, (aggregate_single_py h dfA dim).2 = .ok rA →
      aggregate_single (hread h dfA) dim =
        .ok (hread (aggregate_single_py h dfA dim).1 rA)) ∧
    (∀ rA, (aggregate_cross_py h dfA dim1 dim2).2 = .ok rA →
      aggregate_cross (hread h dfA) dim1 dim2 =
        .ok (hread (aggregate_cross_py h dfA dim1 dim2).1 rA)) := by
  have hne : h.length ≠ dfA := fun heq => absurd ha (by omega)
  refine ⟨?_, ?_, ?_, ?_⟩
  · simp only [aggregate_single_py]
    split_ifs
    all_goals
      first
        | rfl
        | rw [hread_append _ _ _ (by
              simp only [List.length_append, List.length_set, List.length_cons,
                List.length_nil]
              omega),
            hread_append _ _ _ (by
              simp only [List.length_set, List.length_append, List.length_cons,
                List.length_nil]
              omega),
            hread_set_ne _ _ _ _ hne, hread_append _ _ _ ha]
  · simp only [aggregate_cross_py]
    split_ifs
    all_goals
      first
        | rfl
        | rw [hread_append _ _ _ (by
              simp only [List.length_append, List.length_cons, List.length_nil]
              omega),
            hread_append _ _ _ ha]
  · intro rA hok
    simp only [aggregate_single_py] at hok ⊢
    split_ifs at hok ⊢ with hc1 hc2
    all_goals try exact Except.noConfusion hok
    rw [Except.ok.injEq] at hok
    rw [← hok, hread_append_self, hread_append_self,
      hread_set_self _ _ _ (by
        simp only [List.length_append, List.length_cons, List.length_nil]
        omega),
      hread_append_self]
    unfold aggregate_single
    rw [if_neg (by simpa using hc1), if_neg (by simpa using hc2)]
  · intro rA hok
    simp only [aggregate_cross_py] at hok ⊢
    split_ifs at hok ⊢ with hc1 hc2 hc3 hc4
    all_goals try exact Except.noConfusion hok
    rw [Except.ok.injEq] at hok
    rw [← hok, hread_append_self]
    unfold aggregate_cross
    rw [if_neg (by simpa using hc1), if_neg (by simpa using hc2),
      if_neg (by simpa using hc3), if_neg (by simpa using hc4)]

/-- Witness for C10: at a concrete one-table heap, both aggregators leave
the caller's table unchanged. -/
theorem C10_aggregators_no_mutation_witness :
    hread (aggregate_single_py
        [⟨["Parent Code", "Pattern", "Spend"], [[.str "A", .str "b", .num 1]]⟩]
        0 "Parent Code").1 0 =
      hread [⟨["Parent Code", "Pattern", "Spend"],
        [[.str "A", .str "b", .num 1]]⟩] 0 ∧
    hread (aggregate_cross_py
        [⟨["Parent Code", "Pattern", "Spend"], [[.str "A", .str "b", .num 1]]⟩]
        0 "Parent Code" "Pattern").1 0 =
      hread [⟨["Parent Code", "Pattern", "Spend"],
        [[.str "A", .str "b", .num 1]]⟩] 0 :=
  ⟨(C10_aggregators_no_mutation
      [⟨["Parent Code", "Pattern", "Spend"], [[.str "A", .str "b", .num 1]]⟩]
      0 "Parent Code" "Parent Code" "Pattern" (by decide)).1,
   (C10_aggregators_no_mutation
      [⟨["Parent Code", "Pattern", "Spend"], [[.str "A", .str "b", .num 1]]⟩]
      0 "Parent Code" "Parent Code" "Pattern" (by decide)).2.1⟩

/-- A successful campaign-column lookup returns a present column. -/
theorem findCampaignCol_mem {cols : List String} {cc : String}
    (h : findCampaignCol cols = some cc) : cc ∈ cols := by
  unfold findCampaignCol at h
  split_ifs at h with h1 h2 <;> rw [Option.some.injEq] at h <;> rw [← h]
  · exact h1
  · exact h2

/-- Appending a column and a cell does not change a present column's cell
(when the row covers the column). -/
theorem cellAt_snoc (cols : List String) (r : List Cell) (n : String)
    (x : Cell) (c : String) (hc : c ∈ cols)
    (hlen : cols.indexOf c < r.length) :
    cellAt (cols ++ [n]) (r ++ [x]) c = cellAt cols r c := by
  unfold cellAt colIdx
  rw [List.indexOf_append_of_mem hc]
  exact List.getD_append _ _ _ _ hlen

/-- C9 amended: when the three dimension columns are not already present,
`extract_all_dimensions` returns the input with exactly the columns
`Parent Code`, `Pattern`, `Attribute` appended, one row for one row in
order, each row extended with the three extracted values; and the
operation works on a copy - the caller's frame is unchanged in the heap
model.  (When a dimension column already exists, it is overwritten in
place instead of appended, which is what the counterexample exhibits.) -/
theorem C9_extract_append (df : Table) (cc : String)
    (hcc : findCampaignCol df.cols = some cc)
    (hpc : "Parent Code" ∉ df.cols) (hpt : "Pattern" ∉ df.cols)
    (hat : "Attribute" ∉ df.cols) (hwf : WFT df) :
    (extract_all_dimensions df = .ok
      ⟨df.cols ++ ["Parent Code", "Pattern", "Attribute"],
       df.rows.map (fun r =>
         r ++ [.str (extract_parent_code (cellAt df.cols r cc)),
               .str (extract_pattern (cellAt df.cols r cc)),
               .str (extract_attribute (cellAt df.cols r cc))])⟩) ∧
    (∀ (hh : List Table) (dfA : Nat), dfA < hh.length →
      hread (extract_all_py hh dfA).1 dfA = hread hh dfA) := by
  constructor
  · have e1 : setColT df "Parent Code"
        (fun r => .str (extract_parent_code (cellAt df.cols r cc))) =
        ⟨df.cols ++ ["Parent Code"],
         df.rows.map (fun r =>
           r ++ [.str (extract_parent_code (cellAt df.cols r cc))])⟩ := by
      unfold setColT
      rw [if_neg hpc]
    have hpt1 : "Pattern" ∉ df.cols ++ ["Parent Code"] := by
      simp [hpt]
    have hat2 : "Attribute" ∉ (df.cols ++ ["Parent Code"]) ++ ["Pattern"] := by
      simp [hat]
    simp only [extract_all_dimensions, hcc, e1]
    unfold setColT
    rw [if_neg hpt1]
    simp only []
    rw [if_neg hat2]
    rw [Except.ok.injEq, Table.mk.injEq]
    constructor
    · simp
    · rw [List.map_map, List.map_map]
      apply List.map_congr_left
      intro r hr
      have hccmem : cc ∈ df.cols := findCampaignCol_mem hcc
      have hidx : df.cols.indexOf cc < r.length := by
        rw [hwf r hr]
        exact List.indexOf_lt_length.mpr hccmem
      simp only [Function.comp_apply]
      have hB : cellAt (df.cols ++ ["Parent Code"])
          (r ++ [Cell.str (extract_parent_code (cellAt df.cols r cc))]) cc
          = cellAt df.cols r cc :=
        cellAt_snoc df.cols r _ _ cc hccmem hidx
      rw [hB]
      have hA : cellAt (df.cols ++ ["Parent Code"] ++ ["Pattern"])
          ((r ++ [Cell.str (extract_parent_code (cellAt df.cols r cc))]) ++
            [Cell.str (extract_pattern (cellAt df.cols r cc))]) cc
          = cellAt (df.cols ++ ["Parent Code"])
              (r ++ [Cell.str (extract_parent_code (cellAt df.cols r cc))]) cc :=
        cellAt_snoc (df.cols ++ ["Parent Code"]) _ _ _ cc
          (List.mem_append_left _ hccmem)
          (by rw [List.indexOf_append_of_mem hccmem]
              simp only [List.length_append, List.length_cons, List.length_nil]
              omega)
      rw [hA, hB]
      simp
  · intro hh dfA ha
    have hne : hh.length ≠ dfA := fun heq => absurd ha (by omega)
    rcases hfc : findCampaignCol (hread hh dfA).cols with _ | cc2
    · simp only [extract_all_py, hfc]
      exact hread_append _ _ _ ha
    · simp only [extract_all_py, hfc]
      rw [hread_set_ne _ _ _ _ hne, hread_set_ne _ _ _ _ hne,
        hread_set_ne _ _ _ _ hne, hread_append _ _ _ ha]

/-- C9 counterexample: when the input already carries a `Parent Code`
column, the assignment overwrites it in place instead of appending a new
column, so the result is not the input with three columns appended and the
original `Parent Code` values are destroyed in the result. -/
theorem C9_counterexample :
    extract_all_dimensions ⟨["Campaign Name", "Parent Code"],
        [[.str "A B", .num 7]]⟩ =
      .ok ⟨["Campaign Name", "Parent Code", "Pattern", "Attribute"],
        [[.str "A B", .str "A", .str "B", .str "未分类"]]⟩ ∧
    (["Campaign Name", "Parent Code", "Pattern", "Attribute"] : List String) ≠
      ["Campaign Name", "Parent Code"] ++
        ["Parent Code", "Pattern", "Attribute"] ∧
    cellAt ["Campaign Name", "Parent Code", "Pattern", "Attribute"]
        [.str "A B", .str "A", .str "B", .str "未分类"] "Parent Code" ≠
      .num 7 := by
  refine ⟨by decide, by decide, by decide⟩

/-- Witness for C9: a table with only a campaign column gets exactly the
three dimension columns appended, row for row. -/
theorem C9_extract_append_witness :
    extract_all_dimensions ⟨["Campaign Name"], [[.str "A B C"]]⟩ =
      .ok ⟨(Table.cols ⟨["Campaign Name"], [[.str "A B C"]]⟩) ++
          ["Parent Code", "Pattern", "Attribute"],
        (Table.rows ⟨["Campaign Name"], [[.str "A B C"]]⟩).map (fun r =>
          r ++ [.str (extract_parent_code
                  (cellAt (Table.cols ⟨["Campaign Name"], [[.str "A B C"]]⟩)
                    r "Campaign Name")),
                .str (extract_pattern
                  (cellAt (Table.cols ⟨["Campaign Name"], [[.str "A B C"]]⟩)
                    r "Campaign Name")),
                .str (extract_attribute
                  (cellAt (Table.cols ⟨["Campaign Name"], [[.str "A B C"]]⟩)
                    r "Campaign Name"))])⟩ :=
  (C9_extract_append ⟨["Campaign Name"], [[.str "A B C"]]⟩ "Campaign Name"
    (by decide) (by decide) (by decide) (by decide) (by decide)).1
